import Mathlib

/-!
Shallow embedding of the flux suspend checker (flux-suspend-checker.py).

The script sweeps a cluster API: it enumerates every (group, version) pair,
every resource kind that supports the list verb, and every instance of those
kinds; classifies each instance against three suspension annotation keys;
removes the suspension keys (via a JSON Patch) when a suspend-until timestamp
has elapsed; and reports the still-suspended instances as three gauge sets.

Python-level behaviour embedded here:
  * dict.get with a default, dict indexing (KeyError on a missing key),
    key membership;
  * assert raising AssertionError on a non-200 status;
  * dateutil.parser.isoparse raising ValueError on a malformed string
    (dateutil's isoparser raises plain ValueError; ParserError is raised only
    by dateutil.parser.parse, so the script's except-ParserError clause never
    fires for isoparse failures);
  * str.replace replacing every occurrence, left to right, non-overlapping;
  * generators: the sweep is consumed in full by the collector, so it is
    embedded as an eager fold that records yielded entries, issued removal
    calls, and the first uncaught exception (later items are never reached).

Modelling assumptions, stated once: every object carries a metadata.name
(the script would raise KeyError otherwise; no claim concerns a missing
name), and the discovery calls for API groups and kind lists succeed (the
claims under study only exercise failures of instance listing and patching).
-/

/-- Python exceptions that the embedded code can raise or catch. -/
inductive PyErr where
  | assertionError
  | valueError
  | parserError
  | keyError (key : String)
deriving DecidableEq, Repr

/-- Fields of resource['metadata'] that the script reads.  The namespace
field may be absent (the data model allows cluster-scoped instances), which
makes the meta['namespace'] access a KeyError. -/
structure Metadata where
  name : String
  ns : Option String
  annotations : List (String × String)
deriving DecidableEq, Repr

/-- One live resource instance as listed from the API. -/
structure Resource where
  metadata : Metadata
deriving DecidableEq, Repr

/-- RECONCILE_ANNOTATION in the source. -/
def reconcileKey : String := "kustomize.toolkit.fluxcd.io/reconcile"

/-- SUSPEND_UNTIL_ANNOTATION in the source. -/
def suspendUntilKey : String := "flux.b2.genesiscloud.dev/suspend-until"

/-- SUSPENDED_BY_ANNOTATION in the source. -/
def suspendedByKey : String := "flux.b2.genesiscloud.dev/suspended-by"

/-- One tuple yielded by checkAllResources: the Prometheus label list
[group/version, kind, namespace, name] and the two boolean facts. -/
structure Entry where
  labels : List String
  hasTimeout : Bool
  hasOwner : Bool
deriving DecidableEq, Repr

/-- One call to removeResourceAnnotation: the endpoint coordinates and the
raw (unescaped) annotation keys to remove. -/
structure RemovalCall where
  group : String
  version : String
  plural : String
  ns : String
  name : String
  keys : List String
deriving DecidableEq, Repr

/-- Outcome of processing one listed resource inside checkAllResources:
skipped (not suspended), yielded as a gauge entry, un-suspended by a
successful removal patch, or aborted by an uncaught exception (recording the
removal calls issued before the exception). -/
inductive ItemResult where
  | skip
  | entry (e : Entry)
  | removed (c : RemovalCall)
  | fail (issued : List RemovalCall) (err : PyErr)
deriving DecidableEq, Repr

/-- Environment of one sweep: the isoparse parser (none models a raised
ValueError), the current wall clock, and the status the API server returns
for a removal patch. -/
structure Env where
  parse : String → Option Int
  now : Int
  patchStatus : RemovalCall → Nat

/-- Replacement of every occurrence of one character by a string, the
behaviour of Python str.replace with a one-character pattern; strings are
modelled as character lists. -/
def replaceChar (c : Char) (r : List Char) : List Char → List Char
  | [] => []
  | x :: rest => (if x = c then r else [x]) ++ replaceChar c r rest

/-- Replacement of every occurrence of a two-character pattern by one
character, the behaviour of Python str.replace with a two-character pattern
(left to right, non-overlapping). -/
def replacePair (a b r : Char) : List Char → List Char
  | [] => []
  | [x] => [x]
  | x :: y :: rest =>
    if x = a ∧ y = b then r :: replacePair a b r rest
    else x :: replacePair a b r (y :: rest)
termination_by l => l.length

/-- Escaping of an annotation key for a JSON Patch field path, exactly the
source's order: first tilde to tilde-zero, then slash to tilde-one. -/
def escapeKey (s : List Char) : List Char :=
  replaceChar ('/') [('~'), ('1')] (replaceChar ('~') [('~'), ('0')] s)

/-- Inverse unescaping in the inverse order: first tilde-one back to slash,
then tilde-zero back to tilde (the JSON Pointer unescape rule). -/
def unescapeKey (s : List Char) : List Char :=
  replacePair ('~') ('0') ('~') (replacePair ('~') ('1') ('/') s)

/-- Blockwise expansion of a string, one block per character; used to reason
about the escaping functions. -/
def expandWith (f : Char → List Char) : List Char → List Char
  | [] => []
  | c :: s => f c ++ expandWith f s

/-- Block emitted by escapeKey for one input character. -/
def escBlock (c : Char) : List Char :=
  if c = ('~') then [('~'), ('0')] else if c = ('/') then [('~'), ('1')] else [c]

/-- Block left after the first unescape pass (tilde-one restored to slash). -/
def midBlock (c : Char) : List Char :=
  if c = ('~') then [('~'), ('0')] else [c]

/-- Field path of one removed annotation, as built by
removeResourceAnnotation: the metadata/annotations prefix followed by the
escaped key. -/
def removalPath (key : String) : List Char :=
  ("/metadata/annotations/").toList ++ escapeKey key.toList

/-- Embedding of dateutil.parser.isoparse: a successful parse yields the
timestamp, a malformed string raises ValueError (never ParserError, which
only dateutil.parser.parse raises). -/
def isoparseExc (parse : String → Option Int) (s : String) : Except PyErr Int :=
  match parse s with
  | some t => Except.ok t
  | none => Except.error PyErr.valueError

/-- Body of the checkAllResources loop for one listed resource, a direct
embedding of lines 92-130 of the source.  The namespace is read before the
suspension check (meta['namespace'], a KeyError when absent on a namespaced
kind); a resource is suspended iff the reconcile key maps to exactly
"disabled"; a present suspend-until value is parsed inside a
try/except-ParserError block whose handler sets timedOut and hasTimeout to
false; a timed-out resource gets one removal call (reconcile and
suspend-until keys, plus suspended-by when present) whose non-200 status is
an AssertionError; otherwise the labels and the two flags are yielded. -/
def processItem (env : Env) (group version plural kind : String)
    (namespaced : Bool) (resource : Resource) : ItemResult :=
  let meta := resource.metadata
  let anns := meta.annotations
  match (if namespaced then
           match meta.ns with
           | some s => Except.ok s
           | none => Except.error (PyErr.keyError ("namespace"))
         else Except.ok ("")) with
  | Except.error e => ItemResult.fail [] e
  | Except.ok nsStr =>
    if anns.lookup reconcileKey ≠ some ("disabled") then ItemResult.skip
    else
      let hasOwner := (anns.lookup suspendedByKey).isSome
      let labels := [group ++ ("/") ++ version, kind, nsStr, meta.name]
      match anns.lookup suspendUntilKey with
      | none => ItemResult.entry ⟨labels, false, hasOwner⟩
      | some timeout =>
        match (match isoparseExc env.parse timeout with
               | Except.ok t => Except.ok (decide (t < env.now), true)
               | Except.error PyErr.parserError => Except.ok (false, false)
               | Except.error e => Except.error e) with
        | Except.error e => ItemResult.fail [] e
        | Except.ok (timedOut, hasTimeout) =>
          if timedOut then
            let call : RemovalCall :=
              ⟨group, version, plural, nsStr, meta.name,
               [reconcileKey, suspendUntilKey] ++
                 (if hasOwner then [suspendedByKey] else [])⟩
            if env.patchStatus call = 200 then ItemResult.removed call
            else ItemResult.fail [call] PyErr.assertionError
          else ItemResult.entry ⟨labels, hasTimeout, hasOwner⟩

/-- One resource kind as reported by discovery for a (group, version) pair,
together with the server's response to listing its instances: the HTTP
status and the items. -/
structure KindEntry where
  plural : String
  kind : String
  verbs : List String
  namespaced : Bool
  listStatus : Nat
  items : List Resource
deriving DecidableEq, Repr

/-- Cluster as seen through the API: the discovered groups with their
preferred versions, and the kind list of each (group, version) pair. -/
structure Cluster where
  apiGroups : List (String × String)
  kindTable : List ((String × String) × List KindEntry)

/-- Embedding of getAllAPIs: the core pair first, then every discovered
group with its preferred version. -/
def getAllAPIs (c : Cluster) : List (String × String) :=
  (("", "v1")) :: c.apiGroups

/-- Kind list served for one (group, version) pair. -/
def kindsOf (c : Cluster) (group version : String) : List KindEntry :=
  ((c.kindTable.lookup (group, version)).getD [])

/-- One listed resource with its full coordinates, as yielded by
getAllResources. -/
structure Item where
  group : String
  version : String
  plural : String
  kind : String
  namespaced : Bool
  resource : Resource
deriving DecidableEq, Repr

/-- Items of one kind, tagged with their coordinates. -/
def enumItemsOfKind (group version : String) (k : KindEntry) : List Item :=
  k.items.map (fun r => ⟨group, version, k.plural, k.kind, k.namespaced, r⟩)

/-- Embedding of the kind loop of getAllResources: kinds without the list
verb are skipped before any listing call; a non-200 listing status is an
AssertionError that ends the enumeration (the pair returned is the prefix of
items produced before the exception, with the exception). -/
def enumKinds (group version : String) : List KindEntry → List Item × Option PyErr
  | [] => ([], none)
  | k :: rest =>
    if k.verbs.isEmpty || !(k.verbs.contains ("list")) then enumKinds group version rest
    else if k.listStatus ≠ 200 then ([], some PyErr.assertionError)
    else
      let p := enumKinds group version rest
      (enumItemsOfKind group version k ++ p.1, p.2)

/-- Embedding of the group loop of getAllResources. -/
def enumGroups (c : Cluster) : List (String × String) → List Item × Option PyErr
  | [] => ([], none)
  | gv :: rest =>
    match enumKinds gv.1 gv.2 (kindsOf c gv.1 gv.2) with
    | (is, some e) => (is, some e)
    | (is, none) =>
      let p := enumGroups c rest
      (is ++ p.1, p.2)

/-- Embedding of getAllResources: the items yielded before the first listing
exception, and that exception when one occurred. -/
def getAllResources (c : Cluster) : List Item × Option PyErr :=
  enumGroups c (getAllAPIs c)

/-- Result of consuming the checkAllResources generator in full: the yielded
entries, the removal calls issued, and the first uncaught exception (items
after it are never processed). -/
structure SweepResult where
  entries : List Entry
  removals : List RemovalCall
  err : Option PyErr
deriving DecidableEq, Repr

/-- Contribution of one item outcome to the sweep result. -/
def ItemResult.toSweep : ItemResult → SweepResult
  | ItemResult.skip => ⟨[], [], none⟩
  | ItemResult.entry e => ⟨[e], [], none⟩
  | ItemResult.removed c => ⟨[], [c], none⟩
  | ItemResult.fail issued e => ⟨[], issued, some e⟩

/-- Sequencing of sweep fragments: an exception in the first fragment stops
the sweep there, otherwise the second fragment runs after it. -/
def SweepResult.app (a b : SweepResult) : SweepResult :=
  match a.err with
  | some _ => a
  | none => ⟨a.entries ++ b.entries, a.removals ++ b.removals, b.err⟩

/-- Processing of the listed items in order. -/
def processItems (env : Env) : List Item → SweepResult
  | [] => ⟨[], [], none⟩
  | it :: rest =>
    (processItem env it.group it.version it.plural it.kind it.namespaced
        it.resource).toSweep.app (processItems env rest)

/-- Embedding of one full sweep of checkAllResources: the items listed
before any listing exception are processed in order; a listing exception
surfaces after them (the generators interleave, so items yielded before the
failing listing call are already processed when it raises). -/
def checkAllResources (env : Env) (c : Cluster) : SweepResult :=
  let p := getAllResources c
  (processItems env p.1).app ⟨[], [], p.2⟩

/-- Three gauge sets built by FluxSuspendedCollector.collect from the
yielded entries: suspended_resources is 1, unowned is 0 when hasOwner else
1, indefinite is 0 when hasTimeout else 1, all on the same label list. -/
structure Gauges where
  gAll : List (List String × Nat)
  gUnowned : List (List String × Nat)
  gIndefinite : List (List String × Nat)
deriving DecidableEq, Repr

/-- Gauge construction from the entries of one sweep. -/
def buildGauges (entries : List Entry) : Gauges :=
  ⟨entries.map (fun e => (e.labels, 1)),
   entries.map (fun e => (e.labels, if e.hasOwner then 0 else 1)),
   entries.map (fun e => (e.labels, if e.hasTimeout then 0 else 1))⟩

/-- Embedding of FluxSuspendedCollector.collect: an exception raised by the
generator propagates out of the collection, so no gauge set is produced at
all for that sweep. -/
def collect (env : Env) (c : Cluster) : Except PyErr Gauges :=
  match checkAllResources env c with
  | ⟨entries, _, none⟩ => Except.ok (buildGauges entries)
  | ⟨_, _, some e⟩ => Except.error e

/-- Modelled from the spec: the kinds that reach listing are exactly the
kinds whose verb set contains the list verb, each contributing its items in
order.  Comparison definition for the enumeration claim. -/
def listedOf (group version : String) : List KindEntry → List Item
  | [] => []
  | k :: rest =>
    (if k.verbs.contains ("list") then enumItemsOfKind group version k else []) ++
      listedOf group version rest

/-- Removal of a set of annotation keys from an annotation map, the effect
of the JSON Patch remove operations on the server. -/
def eraseKeys (keys : List String) (anns : List (String × String)) :
    List (String × String) :=
  anns.filter (fun kv => !(keys.contains kv.1))

/-- Whether a removal call's endpoint addresses a given resource of a given
kind: group, version, plural and name must agree, and the namespace segment
must match the resource's namespace (for a namespaced kind) or be absent
(empty, for a cluster-scoped kind). -/
def callMatches (group version plural : String) (namespaced : Bool)
    (r : Resource) (c : RemovalCall) : Bool :=
  c.group == group && c.version == version && c.plural == plural &&
    c.name == r.metadata.name &&
    (if namespaced then r.metadata.ns == some c.ns else c.ns == (""))

/-- Application of the removal calls that address a resource to that
resource's annotations. -/
def applyCalls (group version plural : String) (namespaced : Bool)
    (cs : List RemovalCall) (r : Resource) : Resource :=
  cs.foldl (fun r c =>
    if callMatches group version plural namespaced r c then
      { r with metadata := { r.metadata with
          annotations := eraseKeys c.keys r.metadata.annotations } }
    else r) r

/-- Cluster state after the API server has applied a list of removal
patches: every stored resource addressed by a call loses the removed keys;
nothing else changes. -/
def applyRemovals (c : Cluster) (cs : List RemovalCall) : Cluster :=
  { c with kindTable := c.kindTable.map (fun row =>
      (row.1, row.2.map (fun k =>
        { k with
          items := k.items.map (applyCalls row.1.1 row.1.2 k.plural k.namespaced cs) }))) }

/-- Identity of a listed item as a removal endpoint would address it. -/
def itemId (it : Item) : String × String × String × String × String :=
  (it.group, it.version, it.plural,
   (if it.namespaced then it.resource.metadata.ns.getD ("") else ("")),
   it.resource.metadata.name)

/-- Identity carried by a removal call. -/
def callId (c : RemovalCall) : String × String × String × String × String :=
  (c.group, c.version, c.plural, c.ns, c.name)

/-- Item after the server has applied a list of removal patches. -/
def modifyItem (cs : List RemovalCall) (it : Item) : Item :=
  { it with resource :=
      applyCalls it.group it.version it.plural it.namespaced cs it.resource }

/-- Concrete environment used to evaluate the definitions: the parser knows
the timestamps 2000 and 3000, the clock reads 2024, every patch succeeds. -/
def envA : Env :=
  ⟨fun s => if s = ("2000") then some 2000 else if s = ("3000") then some 3000 else none,
   2024, fun _ => 200⟩

/-- Concrete environment whose patch calls are all rejected with status 500. -/
def envPatchFail : Env :=
  ⟨fun s => if s = ("2000") then some 2000 else none, 2024, fun _ => 500⟩

/-- Concrete resource with no annotations. -/
def resPlain : Resource := ⟨⟨("app"), some ("ns1"), []⟩⟩

/-- Concrete resource suspended indefinitely (reconcile key only). -/
def resSuspended : Resource := ⟨⟨("app"), some ("ns1"), [(reconcileKey, ("disabled"))]⟩⟩

/-- Concrete suspended resource with an elapsed timestamp and an owner. -/
def resTimedOut : Resource :=
  ⟨⟨("app"), some ("ns1"),
    [(reconcileKey, ("disabled")), (suspendUntilKey, ("2000")),
     (suspendedByKey, ("alice"))]⟩⟩

/-- Concrete suspended resource with a future timestamp and no owner. -/
def resFuture : Resource :=
  ⟨⟨("app"), some ("ns1"), [(reconcileKey, ("disabled")), (suspendUntilKey, ("3000"))]⟩⟩

/-- Concrete suspended resource with a malformed timestamp. -/
def resBadStamp : Resource :=
  ⟨⟨("app"), some ("ns1"), [(reconcileKey, ("disabled")), (suspendUntilKey, ("garbage"))]⟩⟩

/-- Concrete namespaced instance whose metadata lacks the namespace field. -/
def resNoNs : Resource := ⟨⟨("app"), none, []⟩⟩

/-- Concrete listable kind holding one resource with a malformed stamp. -/
def kindBadStamp : KindEntry :=
  ⟨("configmaps"), ("ConfigMap"), [("list")], true, 200, [resBadStamp]⟩

/-- Concrete listable kind holding one timed-out resource. -/
def kindTimedOut : KindEntry :=
  ⟨("configmaps"), ("ConfigMap"), [("list")], true, 200, [resTimedOut]⟩

/-- Concrete kind whose instance listing fails with status 500. -/
def kindListFail : KindEntry :=
  ⟨("secrets"), ("Secret"), [("list")], true, 500, [resPlain]⟩

/-- Concrete listable kind holding one indefinitely suspended resource. -/
def kindSuspended : KindEntry :=
  ⟨("deployments"), ("Deployment"), [("list")], true, 200, [resSuspended]⟩

/-- Concrete cluster with one kind whose resource has a malformed stamp. -/
def clusterBadStamp : Cluster := ⟨[], [((("", "v1")), [kindBadStamp])]⟩

/-- Concrete cluster with one timed-out resource. -/
def clusterTimedOut : Cluster := ⟨[], [((("", "v1")), [kindTimedOut])]⟩

/-- Concrete cluster where the first kind's listing fails and a second kind
still holds a suspended resource. -/
def clusterListFail : Cluster := ⟨[], [((("", "v1")), [kindListFail, kindSuspended])]⟩

/-- Concrete cluster with one timed-out and one indefinitely suspended
resource, used to evaluate a full successful sweep. -/
def clusterMixed : Cluster := ⟨[], [((("", "v1")), [kindTimedOut, kindSuspended])]⟩

/-! ## Escaping of annotation keys (removeResourceAnnotation, lines 69-74) -/

theorem replaceChar_append (c : Char) (r s t : List Char) :
    replaceChar c r (s ++ t) = replaceChar c r s ++ replaceChar c r t := by
  induction s with
  | nil => simp [replaceChar]
  | cons x xs ih => simp [replaceChar, ih]

theorem escapeKey_cons (c : Char) (cs : List Char) :
    escapeKey (c :: cs) = escBlock c ++ escapeKey cs := by
  by_cases h0 : c = ('~')
  · subst h0
    show replaceChar ('/') [('~'), ('1')]
        (replaceChar ('~') [('~'), ('0')] (('~') :: cs)) = _
    rw [show replaceChar ('~') [('~'), ('0')] (('~') :: cs)
        = [('~'), ('0')] ++ replaceChar ('~') [('~'), ('0')] cs from by
      simp [replaceChar]]
    rw [replaceChar_append]
    rfl
  · by_cases h1 : c = ('/')
    · subst h1
      show replaceChar ('/') [('~'), ('1')]
          (replaceChar ('~') [('~'), ('0')] (('/') :: cs)) = _
      rw [show replaceChar ('~') [('~'), ('0')] (('/') :: cs)
          = [('/')] ++ replaceChar ('~') [('~'), ('0')] cs from by
        simp [replaceChar]]
      rw [replaceChar_append]
      rfl
    · show replaceChar ('/') [('~'), ('1')]
          (replaceChar ('~') [('~'), ('0')] (c :: cs)) = _
      rw [show replaceChar ('~') [('~'), ('0')] (c :: cs)
          = [c] ++ replaceChar ('~') [('~'), ('0')] cs from by
        simp [replaceChar, h0]]
      rw [replaceChar_append]
      simp [replaceChar, escBlock, h0, h1, escapeKey]

theorem escapeKey_eq_expand (s : List Char) : escapeKey s = expandWith escBlock s := by
  induction s with
  | nil => rfl
  | cons c cs ih =>
    rw [escapeKey_cons, ih]
    rfl

theorem replacePair_cons_ne (a b r x : Char) (t : List Char) (h : x ≠ a) :
    replacePair a b r (x :: t) = x :: replacePair a b r t := by
  cases t with
  | nil => simp [replacePair]
  | cons y t' => simp [replacePair, h]

theorem replacePair_cons_pair (a b r : Char) (t : List Char) :
    replacePair a b r (a :: b :: t) = r :: replacePair a b r t := by
  simp [replacePair]

theorem replacePair_cons_ne2 (a b r y : Char) (t : List Char) (h : y ≠ b) :
    replacePair a b r (a :: y :: t) = a :: replacePair a b r (y :: t) := by
  simp [replacePair, h]

theorem unescape_pass1 (s : List Char) :
    replacePair ('~') ('1') ('/') (expandWith escBlock s) = expandWith midBlock s := by
  induction s with
  | nil => simp [expandWith, replacePair]
  | cons c cs ih =>
    by_cases h0 : c = ('~')
    · subst h0
      show replacePair ('~') ('1') ('/') (('~') :: ('0') :: expandWith escBlock cs) = _
      rw [replacePair_cons_ne2 _ _ _ _ _ (by decide),
        replacePair_cons_ne _ _ _ _ _ (by decide), ih]
      rfl
    · by_cases h1 : c = ('/')
      · subst h1
        show replacePair ('~') ('1') ('/') (('~') :: ('1') :: expandWith escBlock cs) = _
        rw [replacePair_cons_pair, ih]
        rfl
      · have he : expandWith escBlock (c :: cs) = c :: expandWith escBlock cs := by
          simp [expandWith, escBlock, h0, h1]
        have hm : expandWith midBlock (c :: cs) = c :: expandWith midBlock cs := by
          simp [expandWith, midBlock, h0]
        rw [he, replacePair_cons_ne _ _ _ _ _ h0, ih, hm]

theorem unescape_pass2 (s : List Char) :
    replacePair ('~') ('0') ('~') (expandWith midBlock s) = s := by
  induction s with
  | nil => simp [expandWith, replacePair]
  | cons c cs ih =>
    by_cases h0 : c = ('~')
    · subst h0
      show replacePair ('~') ('0') ('~') (('~') :: ('0') :: expandWith midBlock cs) = _
      rw [replacePair_cons_pair, ih]
    · have hm : expandWith midBlock (c :: cs) = c :: expandWith midBlock cs := by
        simp [expandWith, midBlock, h0]
      rw [hm, replacePair_cons_ne _ _ _ _ _ h0, ih]

/-- C4: escapeKey substitutes tilde with tilde-zero before substituting
slash with tilde-one (this is its definition, restated in the first
conjunct), and the escaping round-trips: unescapeKey, which applies the
inverse substitutions in the inverse order, recovers every original key,
including keys containing literal tilde and slash characters. -/
theorem escape_roundTrip (key : List Char) :
    escapeKey key
        = replaceChar ('/') [('~'), ('1')] (replaceChar ('~') [('~'), ('0')] key) ∧
      unescapeKey (escapeKey key) = key := by
  refine ⟨rfl, ?_⟩
  unfold unescapeKey
  rw [escapeKey_eq_expand, unescape_pass1, unescape_pass2]

/-! ## Sweep sequencing lemmas -/

theorem SweepResult.app_of_err (a b : SweepResult) (e : PyErr) (h : a.err = some e) :
    a.app b = a := by
  simp [SweepResult.app, h]

theorem SweepResult.app_of_none (a b : SweepResult) (h : a.err = none) :
    a.app b = ⟨a.entries ++ b.entries, a.removals ++ b.removals, b.err⟩ := by
  simp [SweepResult.app, h]

theorem SweepResult.err_app_of_none (a b : SweepResult) (h : a.err = none) :
    (a.app b).err = b.err := by
  simp [SweepResult.app, h]

theorem SweepResult.app_assoc (a b c : SweepResult) :
    (a.app b).app c = a.app (b.app c) := by
  obtain ⟨ea, ra, xa⟩ := a
  obtain ⟨eb, rb, xb⟩ := b
  cases xa <;> cases xb <;> simp [SweepResult.app, List.append_assoc]

theorem processItems_append (env : Env) (l1 l2 : List Item) :
    processItems env (l1 ++ l2) = (processItems env l1).app (processItems env l2) := by
  induction l1 with
  | nil => simp [processItems, SweepResult.app]
  | cons it rest ih =>
    simp only [List.cons_append, processItems, List.append_eq, ih, SweepResult.app_assoc]

/-! ## Classification of one resource (checkAllResources, lines 92-130) -/

theorem processItem_fail_ns (env : Env) (group version plural kind : String)
    (r : Resource) (h : r.metadata.ns = none) :
    processItem env group version plural kind true r =
      ItemResult.fail [] (PyErr.keyError ("namespace")) := by
  simp [processItem, h]

theorem processItem_skip_of_not_disabled (env : Env) (group version plural kind : String)
    (namespaced : Bool) (r : Resource)
    (hns : namespaced = true → r.metadata.ns.isSome)
    (h : r.metadata.annotations.lookup reconcileKey ≠ some ("disabled")) :
    processItem env group version plural kind namespaced r = ItemResult.skip := by
  cases namespaced with
  | false => simp [processItem, h]
  | true =>
    obtain ⟨s, hs⟩ := Option.isSome_iff_exists.mp (hns rfl)
    simp [processItem, hs, h]

theorem processItem_ne_skip_of_disabled (env : Env) (group version plural kind : String)
    (namespaced : Bool) (r : Resource)
    (h : r.metadata.annotations.lookup reconcileKey = some ("disabled")) :
    processItem env group version plural kind namespaced r ≠ ItemResult.skip := by
  cases namespaced with
  | false =>
    rcases hu : r.metadata.annotations.lookup suspendUntilKey with _ | timeout
    · simp [processItem, h, hu]
    · rcases hp : env.parse timeout with _ | t
      · simp [processItem, h, hu, isoparseExc, hp]
      · simp [processItem, h, hu, isoparseExc, hp]
        intro hskip
        split at hskip
        · split at hskip <;> split at hskip <;> simp at hskip
        · simp at hskip
  | true =>
    cases hn : r.metadata.ns with
    | none => simp [processItem, hn]
    | some s =>
      rcases hu : r.metadata.annotations.lookup suspendUntilKey with _ | timeout
      · simp [processItem, hn, h, hu]
      · rcases hp : env.parse timeout with _ | t
        · simp [processItem, hn, h, hu, isoparseExc, hp]
        · simp [processItem, hn, h, hu, isoparseExc, hp]
          intro hskip
          split at hskip
          · split at hskip <;> split at hskip <;> simp at hskip
          · simp at hskip

theorem processItem_entry_disabled (env : Env) (group version plural kind : String)
    (namespaced : Bool) (r : Resource) (e : Entry)
    (he : processItem env group version plural kind namespaced r = ItemResult.entry e) :
    r.metadata.annotations.lookup reconcileKey = some ("disabled") := by
  by_contra h
  cases namespaced with
  | false =>
    rw [processItem_skip_of_not_disabled env group version plural kind false r
      (fun hx => nomatch hx) h] at he
    exact absurd he (by simp)
  | true =>
    cases hn : r.metadata.ns with
    | some s =>
      rw [processItem_skip_of_not_disabled env group version plural kind true r
        (fun _ => by simp [hn]) h] at he
      exact absurd he (by simp)
    | none =>
      rw [processItem_fail_ns env group version plural kind r hn] at he
      exact absurd he (by simp)

/-- C1: the classifier treats a resource as suspended iff its annotations
map the reconcile key to exactly the string "disabled": whenever the key is
absent or carries any other value the resource is skipped as Active (first
conjunct, an iff, given that the namespace read does not raise), and a gauge
entry — the only way into any of the three gauge sets — can only arise from
a resource whose reconcile key is exactly "disabled" (second conjunct,
unconditional). -/
theorem suspension_iff_disabled (env : Env) (group version plural kind : String)
    (namespaced : Bool) (r : Resource)
    (hns : namespaced = true → r.metadata.ns.isSome) :
    (processItem env group version plural kind namespaced r = ItemResult.skip ↔
      r.metadata.annotations.lookup reconcileKey ≠ some ("disabled")) ∧
    (∀ e : Entry,
      processItem env group version plural kind namespaced r = ItemResult.entry e →
        r.metadata.annotations.lookup reconcileKey = some ("disabled")) := by
  refine ⟨⟨fun hskip => ?_, fun h => ?_⟩,
    fun e he => processItem_entry_disabled env group version plural kind namespaced r e he⟩
  · intro hd
    exact processItem_ne_skip_of_disabled env group version plural kind namespaced r hd hskip
  · exact processItem_skip_of_not_disabled env group version plural kind namespaced r hns h

/-- Witness for the classifier iff at a concrete non-suspended resource. -/
theorem suspension_iff_disabled_witness :
    (processItem envA ("") ("v1") ("pods") ("Pod") false resPlain = ItemResult.skip ↔
      resPlain.metadata.annotations.lookup reconcileKey ≠ some ("disabled")) :=
  (suspension_iff_disabled envA ("") ("v1") ("pods") ("Pod") false resPlain
    (by decide)).1

/-- C2: a resource with reconcile = "disabled" and a parseable suspend-until
timestamp strictly before the current time produces exactly one removal call
whose key list is exactly the reconcile and suspend-until keys, extended by
the suspended-by key iff that key is present, and contributes no gauge entry
to the sweep (its sweep contribution holds the one call and no entries). -/
theorem timedOut_removed (env : Env) (group version plural kind : String)
    (namespaced : Bool) (r : Resource) (nsStr timeout : String) (t : Int)
    (hns : if namespaced then r.metadata.ns = some nsStr else nsStr = (""))
    (hrec : r.metadata.annotations.lookup reconcileKey = some ("disabled"))
    (hu : r.metadata.annotations.lookup suspendUntilKey = some timeout)
    (hp : env.parse timeout = some t)
    (ht : t < env.now)
    (hst : env.patchStatus
        ⟨group, version, plural, nsStr, r.metadata.name,
         [reconcileKey, suspendUntilKey] ++
           (if (r.metadata.annotations.lookup suspendedByKey).isSome
            then [suspendedByKey] else [])⟩ = 200) :
    processItem env group version plural kind namespaced r =
      ItemResult.removed
        ⟨group, version, plural, nsStr, r.metadata.name,
         [reconcileKey, suspendUntilKey] ++
           (if (r.metadata.annotations.lookup suspendedByKey).isSome
            then [suspendedByKey] else [])⟩ ∧
    (processItem env group version plural kind namespaced r).toSweep =
      ⟨[], [⟨group, version, plural, nsStr, r.metadata.name,
            [reconcileKey, suspendUntilKey] ++
              (if (r.metadata.annotations.lookup suspendedByKey).isSome
               then [suspendedByKey] else [])⟩], none⟩ := by
  have hmain : processItem env group version plural kind namespaced r =
      ItemResult.removed
        ⟨group, version, plural, nsStr, r.metadata.name,
         [reconcileKey, suspendUntilKey] ++
           (if (r.metadata.annotations.lookup suspendedByKey).isSome
            then [suspendedByKey] else [])⟩ := by
    cases namespaced with
    | false =>
      simp only [if_false, Bool.false_eq_true] at hns
      subst hns
      simp only [List.cons_append, List.nil_append] at hst
      simp [processItem, hrec, hu, isoparseExc, hp, ht, hst]
    | true =>
      simp only [if_true] at hns
      simp only [List.cons_append, List.nil_append] at hst
      simp [processItem, hns, hrec, hu, isoparseExc, hp, ht, hst]
  exact ⟨hmain, by rw [hmain]; rfl⟩

/-- Witness for the removal call at a concrete timed-out owned resource. -/
theorem timedOut_removed_witness :
    processItem envA ("") ("v1") ("configmaps") ("ConfigMap") true resTimedOut =
      ItemResult.removed
        ⟨(""), ("v1"), ("configmaps"), ("ns1"), ("app"),
         [reconcileKey, suspendUntilKey] ++
           (if (resTimedOut.metadata.annotations.lookup suspendedByKey).isSome
            then [suspendedByKey] else [])⟩ :=
  (timedOut_removed envA ("") ("v1") ("configmaps") ("ConfigMap") true resTimedOut
    ("ns1") ("2000") 2000 (by decide) (by decide) (by decide) (by decide) (by decide)
    (by decide)).1

/-- C3: evaluation of the code at the failing input.  A suspended resource
whose suspend-until value fails to parse makes the sweep raise: isoparse
raises ValueError, the except clause only catches dateutil ParserError, so
the exception propagates — the item is not reported with an indefinite
gauge, no gauge set is produced at all, and remaining resources are not
reached.  This contradicts the claim (and the source's own comment), which
expect the error to be logged, the resource to be treated as having no
expiry, and the sweep to continue. -/
theorem malformed_timestamp_aborts :
    processItem envA ("") ("v1") ("configmaps") ("ConfigMap") true resBadStamp =
      ItemResult.fail [] PyErr.valueError ∧
    checkAllResources envA clusterBadStamp = ⟨[], [], some PyErr.valueError⟩ := by
  decide

/-- C5 counterexample: with every patch rejected (status 500), a sweep over
one timed-out resource aborts with AssertionError after issuing the one
removal call; the entry list is empty, so the resource is not counted in
any gauge set of that sweep and no later resource could be processed —
refuting the claim that the failure is surfaced for that resource only,
that the sweep continues, and that the resource stays counted. -/
theorem patch_failure_counterexample :
    checkAllResources envPatchFail clusterTimedOut =
      ⟨[], [⟨(""), ("v1"), ("configmaps"), ("ns1"), ("app"),
            [reconcileKey, suspendUntilKey, suspendedByKey]⟩],
       some PyErr.assertionError⟩ := by
  decide

/-- C5 amended: a non-success status of the removal patch raises an
AssertionError that aborts the entire sweep; the failing resource yields no
gauge entry (it is not counted anywhere), the one issued call is recorded,
and no later item of the sweep is processed. -/
theorem patch_failure_aborts (env : Env) (group version plural kind : String)
    (namespaced : Bool) (r : Resource) (nsStr timeout : String) (t : Int)
    (hns : if namespaced then r.metadata.ns = some nsStr else nsStr = (""))
    (hrec : r.metadata.annotations.lookup reconcileKey = some ("disabled"))
    (hu : r.metadata.annotations.lookup suspendUntilKey = some timeout)
    (hp : env.parse timeout = some t)
    (ht : t < env.now)
    (hst : env.patchStatus
        ⟨group, version, plural, nsStr, r.metadata.name,
         [reconcileKey, suspendUntilKey] ++
           (if (r.metadata.annotations.lookup suspendedByKey).isSome
            then [suspendedByKey] else [])⟩ ≠ 200) :
    processItem env group version plural kind namespaced r =
      ItemResult.fail
        [⟨group, version, plural, nsStr, r.metadata.name,
          [reconcileKey, suspendUntilKey] ++
            (if (r.metadata.annotations.lookup suspendedByKey).isSome
             then [suspendedByKey] else [])⟩] PyErr.assertionError ∧
    ∀ rest : List Item,
      processItems env (⟨group, version, plural, kind, namespaced, r⟩ :: rest) =
        ⟨[], [⟨group, version, plural, nsStr, r.metadata.name,
              [reconcileKey, suspendUntilKey] ++
                (if (r.metadata.annotations.lookup suspendedByKey).isSome
                 then [suspendedByKey] else [])⟩], some PyErr.assertionError⟩ := by
  have hmain : processItem env group version plural kind namespaced r =
      ItemResult.fail
        [⟨group, version, plural, nsStr, r.metadata.name,
          [reconcileKey, suspendUntilKey] ++
            (if (r.metadata.annotations.lookup suspendedByKey).isSome
             then [suspendedByKey] else [])⟩] PyErr.assertionError := by
    cases namespaced with
    | false =>
      simp only [if_false, Bool.false_eq_true] at hns
      subst hns
      simp only [List.cons_append, List.nil_append] at hst
      simp [processItem, hrec, hu, isoparseExc, hp, ht, hst]
    | true =>
      simp only [if_true] at hns
      simp only [List.cons_append, List.nil_append] at hst
      simp [processItem, hns, hrec, hu, isoparseExc, hp, ht, hst]
  refine ⟨hmain, fun rest => ?_⟩
  simp only [processItems, hmain]
  rfl

/-- Witness for the amended patch-failure behaviour at a concrete input. -/
theorem patch_failure_aborts_witness :
    processItems envPatchFail [⟨(""), ("v1"), ("configmaps"), ("ConfigMap"), true, resTimedOut⟩] =
      ⟨[], [⟨(""), ("v1"), ("configmaps"), ("ns1"), ("app"),
            [reconcileKey, suspendUntilKey] ++
              (if (resTimedOut.metadata.annotations.lookup suspendedByKey).isSome
               then [suspendedByKey] else [])⟩], some PyErr.assertionError⟩ :=
  (patch_failure_aborts envPatchFail ("") ("v1") ("configmaps") ("ConfigMap") true
    resTimedOut ("ns1") ("2000") 2000 (by decide) (by decide) (by decide) (by decide)
    (by decide) (by decide)).2 []

/-- C6 counterexample: the first kind's instance listing fails with status
500 while a second kind holds a suspended resource; the sweep aborts with
AssertionError, yields no entries and no removals — the second kind is
never enumerated, classified or reported, refuting the claim that only the
failing kind is skipped.  Removing the failing kind (second conjunct) shows
the suspended resource of the second kind would otherwise be reported. -/
theorem list_failure_counterexample :
    checkAllResources envA clusterListFail = ⟨[], [], some PyErr.assertionError⟩ ∧
    checkAllResources envA ⟨[], [((("", "v1")), [kindSuspended])]⟩ =
      ⟨[⟨[("/v1"), ("Deployment"), ("ns1"), ("app")], false, false⟩], [], none⟩ := by
  decide

/-- C6 amended: a failing instance listing for one kind raises an
AssertionError that aborts the whole sweep: the enumeration stops at the
failing kind, every kind after it is dropped (first conjunct), and the
sweep never completes cleanly (second conjunct). -/
theorem list_failure_aborts (env : Env) (c : Cluster) (e : PyErr)
    (group version : String) (k : KindEntry) (rest : List KindEntry)
    (hv : k.verbs.contains ("list") = true)
    (hs : k.listStatus ≠ 200)
    (h : (getAllResources c).2 = some e) :
    enumKinds group version (k :: rest) = ([], some PyErr.assertionError) ∧
    (checkAllResources env c).err ≠ none := by
  constructor
  · have hm : ("list") ∈ k.verbs := by simpa using hv
    have hve : k.verbs.isEmpty = false := by
      cases hvb : k.verbs with
      | nil => rw [hvb] at hm; simp at hm
      | cons a l => simp
    simp [enumKinds, hve, hv, hm, hs]
  · unfold checkAllResources
    cases hp : (processItems env (getAllResources c).1).err with
    | some e2 =>
      rw [SweepResult.app_of_err _ _ e2 hp]
      simp [hp]
    | none =>
      rw [SweepResult.err_app_of_none _ _ hp, h]
      simp

/-- Witness for the amended listing-failure behaviour at a concrete input. -/
theorem list_failure_aborts_witness :
    enumKinds ("") ("v1") [kindListFail, kindSuspended] = ([], some PyErr.assertionError) ∧
    (checkAllResources envA clusterListFail).err ≠ none :=
  list_failure_aborts envA clusterListFail PyErr.assertionError ("") ("v1")
    kindListFail [kindSuspended] (by decide) (by decide) (by decide)

/-- C7: at every index of the entry list, the three gauge sets built by the
collector carry the same label tuple, with suspended_resources 1, unowned
1 iff hasOwner is false, indefinite 1 iff hasTimeout is false (first three
conjuncts); a resource with reconcile = "disabled", a parseable future
suspend-until and no suspended-by key yields the entry (labels, hasTimeout
true, hasOwner false) (fourth conjunct), whose gauge values are (1, 1, 0)
(last conjunct). -/
theorem gauge_values (entries : List Entry) (i : Nat)
    (env : Env) (group version plural kind : String) (namespaced : Bool)
    (r : Resource) (nsStr timeout : String) (t : Int)
    (hns : if namespaced then r.metadata.ns = some nsStr else nsStr = (""))
    (hrec : r.metadata.annotations.lookup reconcileKey = some ("disabled"))
    (hu : r.metadata.annotations.lookup suspendUntilKey = some timeout)
    (hp : env.parse timeout = some t)
    (hf : ¬ t < env.now)
    (hno : r.metadata.annotations.lookup suspendedByKey = none) :
    (buildGauges entries).gAll.get? i = (entries.get? i).map (fun e => (e.labels, 1)) ∧
    (buildGauges entries).gUnowned.get? i =
      (entries.get? i).map (fun e => (e.labels, if e.hasOwner then 0 else 1)) ∧
    (buildGauges entries).gIndefinite.get? i =
      (entries.get? i).map (fun e => (e.labels, if e.hasTimeout then 0 else 1)) ∧
    processItem env group version plural kind namespaced r =
      ItemResult.entry
        ⟨[group ++ ("/") ++ version, kind, nsStr, r.metadata.name], true, false⟩ ∧
    buildGauges [⟨[group ++ ("/") ++ version, kind, nsStr, r.metadata.name], true, false⟩] =
      ⟨[([group ++ ("/") ++ version, kind, nsStr, r.metadata.name], 1)],
       [([group ++ ("/") ++ version, kind, nsStr, r.metadata.name], 1)],
       [([group ++ ("/") ++ version, kind, nsStr, r.metadata.name], 0)]⟩ := by
  refine ⟨by simp [buildGauges], by simp [buildGauges], by simp [buildGauges], ?_, rfl⟩
  cases namespaced with
  | false =>
    simp only [if_false, Bool.false_eq_true] at hns
    subst hns
    simp [processItem, hrec, hu, isoparseExc, hp, hf, hno]
  | true =>
    simp only [if_true] at hns
    simp [processItem, hns, hrec, hu, isoparseExc, hp, hf, hno]

/-- Witness for the gauge values at a concrete future-suspended resource. -/
theorem gauge_values_witness :
    (buildGauges ([] : List Entry)).gAll.get? 0 =
      (List.get? ([] : List Entry) 0).map (fun e => (e.labels, 1)) ∧
    (buildGauges ([] : List Entry)).gUnowned.get? 0 =
      (List.get? ([] : List Entry) 0).map (fun e => (e.labels, if e.hasOwner then 0 else 1)) ∧
    (buildGauges ([] : List Entry)).gIndefinite.get? 0 =
      (List.get? ([] : List Entry) 0).map (fun e => (e.labels, if e.hasTimeout then 0 else 1)) ∧
    processItem envA ("") ("v1") ("helmreleases") ("HelmRelease") true resFuture =
      ItemResult.entry
        ⟨[("") ++ ("/") ++ ("v1"), ("HelmRelease"), ("ns1"), resFuture.metadata.name],
         true, false⟩ ∧
    buildGauges [⟨[("") ++ ("/") ++ ("v1"), ("HelmRelease"), ("ns1"),
        resFuture.metadata.name], true, false⟩] =
      ⟨[([("") ++ ("/") ++ ("v1"), ("HelmRelease"), ("ns1"), resFuture.metadata.name], 1)],
       [([("") ++ ("/") ++ ("v1"), ("HelmRelease"), ("ns1"), resFuture.metadata.name], 1)],
       [([("") ++ ("/") ++ ("v1"), ("HelmRelease"), ("ns1"), resFuture.metadata.name], 0)]⟩ :=
  gauge_values [] 0 envA ("") ("v1") ("helmreleases") ("HelmRelease") true resFuture
    ("ns1") ("3000") 3000 (by decide) (by decide) (by decide) (by decide) (by decide)
    (by decide)

/-- C10: the namespace field of a namespaced instance is read before any
other check, so a namespaced instance without it makes processing fail with
KeyError "namespace" whatever its annotations say (first conjunct); any
sweep reaching such an item aborts with that KeyError (second conjunct);
and for a non-namespaced kind the namespace label — position 2 of the label
list — is always the empty string (third conjunct). -/
theorem namespace_keyerror (env : Env) (group version plural kind : String) :
    (∀ r : Resource, r.metadata.ns = none →
      processItem env group version plural kind true r =
        ItemResult.fail [] (PyErr.keyError ("namespace"))) ∧
    (∀ (pre : List Item) (it : Item) (rest : List Item),
      (processItems env pre).err = none → it.namespaced = true →
      it.resource.metadata.ns = none →
      (processItems env (pre ++ it :: rest)).err = some (PyErr.keyError ("namespace"))) ∧
    (∀ (r : Resource) (e : Entry),
      processItem env group version plural kind false r = ItemResult.entry e →
        e.labels.get? 2 = some ("")) := by
  refine ⟨fun r h => processItem_fail_ns env group version plural kind r h,
    fun pre it rest hpre hnsd hnone => ?_, fun r e he => ?_⟩
  · rw [processItems_append, SweepResult.err_app_of_none _ _ hpre]
    obtain ⟨g2, v2, pl2, k2, nsd2, r2⟩ := it
    simp only at hnsd hnone
    subst hnsd
    simp only [processItems, processItem_fail_ns env g2 v2 pl2 k2 r2 hnone]
    rfl
  · obtain ⟨el, et, eo⟩ := e
    by_cases hrec : r.metadata.annotations.lookup reconcileKey = some ("disabled")
    · rcases hu : r.metadata.annotations.lookup suspendUntilKey with _ | timeout
      · simp [processItem, hrec, hu] at he
        rw [← he.1]
        rfl
      · rcases hp : env.parse timeout with _ | t
        · simp [processItem, hrec, hu, isoparseExc, hp] at he
        · by_cases ht : t < env.now
          · simp [processItem, hrec, hu, isoparseExc, hp, ht] at he
            split at he <;> split at he <;> simp at he
          · simp [processItem, hrec, hu, isoparseExc, hp, ht] at he
            rw [← he.1]
            rfl
    · rw [processItem_skip_of_not_disabled env group version plural kind false r
        (fun hx => nomatch hx) hrec] at he
      exact absurd he (by simp)

/-- Witness for the namespace KeyError at a concrete instance. -/
theorem namespace_keyerror_witness :
    processItem envA ("") ("v1") ("pods") ("Pod") true resNoNs =
      ItemResult.fail [] (PyErr.keyError ("namespace")) :=
  (namespace_keyerror envA ("") ("v1") ("pods") ("Pod")).1 resNoNs rfl

/-! ## Enumeration (getAllAPIs, getAllResources, lines 25-56) -/

theorem enumKinds_eq_listedOf (group version : String) (ks : List KindEntry)
    (h : ∀ k ∈ ks, k.verbs.contains ("list") = true → k.listStatus = 200) :
    enumKinds group version ks = (listedOf group version ks, none) := by
  induction ks with
  | nil => rfl
  | cons k rest ih =>
    have hrest := ih (fun k2 hk2 => h k2 (List.mem_cons_of_mem _ hk2))
    by_cases hv : k.verbs.contains ("list") = true
    · have hm : ("list") ∈ k.verbs := by simpa using hv
      have hs := h k (List.mem_cons_self _ _) hv
      have hve : k.verbs.isEmpty = false := by
        cases hvb : k.verbs with
        | nil => rw [hvb] at hm; simp at hm
        | cons a l => simp
      simp [enumKinds, listedOf, hve, hv, hm, hs, hrest]
    · have hm : ("list") ∉ k.verbs := by simpa using hv
      simp [enumKinds, listedOf, hm, hrest]

/-- C9: the (group, version) enumeration always yields the core pair
("", "v1") first, followed by each discovered API group with its
server-reported preferred version (first conjunct), and — whenever the
listing calls that are actually made succeed — the enumeration of a kind
list yields exactly the items of the kinds whose verb set contains "list",
in order: kinds without the list verb contribute nothing downstream
(second conjunct, against the spec-side description listedOf). -/
theorem api_enumeration (c : Cluster) (group version : String) (ks : List KindEntry)
    (h : ∀ k ∈ ks, k.verbs.contains ("list") = true → k.listStatus = 200) :
    getAllAPIs c = (("", "v1")) :: c.apiGroups ∧
    enumKinds group version ks = (listedOf group version ks, none) :=
  ⟨rfl, enumKinds_eq_listedOf group version ks h⟩

/-- Witness for the enumeration at a concrete cluster and kind list. -/
theorem api_enumeration_witness :
    getAllAPIs clusterMixed = (("", "v1")) :: clusterMixed.apiGroups ∧
    enumKinds ("") ("v1") [kindTimedOut, kindSuspended] =
      (listedOf ("") ("v1") [kindTimedOut, kindSuspended], none) :=
  api_enumeration clusterMixed ("") ("v1") [kindTimedOut, kindSuspended] (by decide)

/-! ## Idempotence machinery: the enumeration after removal patches -/

theorem kindsOf_applyRemovals (c : Cluster) (cs : List RemovalCall) (g v : String) :
    kindsOf (applyRemovals c cs) g v =
      (kindsOf c g v).map (fun k =>
        { k with items := k.items.map (applyCalls g v k.plural k.namespaced cs) }) := by
  obtain ⟨ag, tbl⟩ := c
  unfold kindsOf applyRemovals
  simp only
  induction tbl with
  | nil => rfl
  | cons row rest ih =>
    obtain ⟨⟨rg, rv⟩, ks⟩ := row
    by_cases hk : ((g, v) : String × String) = (rg, rv)
    · injection hk with h1 h2
      subst h1
      subst h2
      simp [List.lookup]
    · have hbe : (((g, v) : String × String) == (rg, rv)) = false := by
        simpa using hk
      simp only [List.map_cons, List.lookup, hbe]
      exact ih

theorem enumKinds_applyRemovals (cs : List RemovalCall) (g v : String)
    (ks : List KindEntry) :
    enumKinds g v (ks.map (fun k =>
        { k with items := k.items.map (applyCalls g v k.plural k.namespaced cs) })) =
      ((enumKinds g v ks).1.map (modifyItem cs), (enumKinds g v ks).2) := by
  induction ks with
  | nil => rfl
  | cons k rest ih =>
    simp only [List.map_cons, enumKinds]
    rcases Bool.eq_false_or_eq_true (k.verbs.isEmpty || !(k.verbs.contains ("list")))
      with hv | hv
    · rw [if_pos hv, if_pos hv]
      exact ih
    · have hv' : ¬ (k.verbs.isEmpty || !(k.verbs.contains ("list"))) = true := by
        rw [hv]
        simp
      rw [if_neg hv', if_neg hv']
      by_cases hs : k.listStatus ≠ 200
      · rw [if_pos hs, if_pos hs]
        simp
      · rw [if_neg hs, if_neg hs]
        simp only [ih, enumItemsOfKind, List.map_append, List.map_map]
        rfl

theorem getAllResources_applyRemovals (c : Cluster) (cs : List RemovalCall) :
    getAllResources (applyRemovals c cs) =
      ((getAllResources c).1.map (modifyItem cs), (getAllResources c).2) := by
  unfold getAllResources
  have hga : getAllAPIs (applyRemovals c cs) = getAllAPIs c := rfl
  rw [hga]
  generalize getAllAPIs c = gvs
  induction gvs with
  | nil => rfl
  | cons gv rest ih =>
    simp only [enumGroups, kindsOf_applyRemovals, enumKinds_applyRemovals]
    rcases he : enumKinds gv.1 gv.2 (kindsOf c gv.1 gv.2) with ⟨is, err⟩
    cases err with
    | some e => simp
    | none => simp [ih, List.map_append]

/-! ## Idempotence machinery: processing after removal patches -/

theorem processItems_cons_ok (env : Env) (it : Item) (rest : List Item)
    (E : List Entry) (R : List RemovalCall)
    (h : processItems env (it :: rest) = ⟨E, R, none⟩) :
    ∃ E1 R1 E2 R2,
      (processItem env it.group it.version it.plural it.kind it.namespaced
        it.resource).toSweep = ⟨E1, R1, none⟩ ∧
      processItems env rest = ⟨E2, R2, none⟩ ∧ E = E1 ++ E2 ∧ R = R1 ++ R2 := by
  rcases ha : (processItem env it.group it.version it.plural it.kind it.namespaced
      it.resource).toSweep with ⟨E1, R1, x1⟩
  rcases hb : processItems env rest with ⟨E2, R2, x2⟩
  simp only [processItems] at h
  rw [ha, hb] at h
  cases x1 with
  | some e =>
    rw [SweepResult.app_of_err _ _ e rfl] at h
    injection h with _ _ hx
    cases hx
  | none =>
    rw [SweepResult.app_of_none _ _ rfl] at h
    injection h with hE hR hx
    subst hx
    exact ⟨E1, R1, E2, R2, rfl, rfl, hE.symm, hR.symm⟩

theorem removals_origin (env : Env) (items : List Item) (E : List Entry)
    (R : List RemovalCall) (h : processItems env items = ⟨E, R, none⟩) :
    ∀ call ∈ R, ∃ it ∈ items,
      processItem env it.group it.version it.plural it.kind it.namespaced it.resource =
        ItemResult.removed call := by
  induction items generalizing E R with
  | nil =>
    simp only [processItems] at h
    injection h with _ hR _
    intro call hc
    rw [← hR] at hc
    cases hc
  | cons it rest ih =>
    obtain ⟨E1, R1, E2, R2, ha, hb, hE, hR⟩ := processItems_cons_ok env it rest E R h
    intro call hc
    rw [hR] at hc
    rcases List.mem_append.mp hc with h1 | h2
    · cases hres : processItem env it.group it.version it.plural it.kind it.namespaced
          it.resource with
      | skip =>
        rw [hres] at ha
        simp only [ItemResult.toSweep] at ha
        injection ha with _ hR1 _
        rw [← hR1] at h1
        cases h1
      | entry e =>
        rw [hres] at ha
        simp only [ItemResult.toSweep] at ha
        injection ha with _ hR1 _
        rw [← hR1] at h1
        cases h1
      | removed c0 =>
        rw [hres] at ha
        simp only [ItemResult.toSweep] at ha
        injection ha with _ hR1 _
        rw [← hR1] at h1
        have hcc : call = c0 := by simpa using h1
        subst hcc
        exact ⟨it, List.mem_cons_self _ _, hres⟩
      | fail iss er =>
        rw [hres] at ha
        simp only [ItemResult.toSweep] at ha
        injection ha with _ _ hx
        cases hx
    · obtain ⟨it2, hit2, h2'⟩ := ih E2 R2 hb call h2
      exact ⟨it2, List.mem_cons_of_mem _ hit2, h2'⟩

theorem removed_inversion (env : Env) (g v pl kd : String) (nsd : Bool) (r : Resource)
    (c : RemovalCall)
    (h : processItem env g v pl kd nsd r = ItemResult.removed c) :
    c.group = g ∧ c.version = v ∧ c.plural = pl ∧ c.name = r.metadata.name ∧
    (if nsd then r.metadata.ns = some c.ns else c.ns = ("")) ∧
    c.keys = [reconcileKey, suspendUntilKey] ++
      (if (r.metadata.annotations.lookup suspendedByKey).isSome
       then [suspendedByKey] else []) := by
  cases nsd with
  | false =>
    by_cases hrec : r.metadata.annotations.lookup reconcileKey = some ("disabled")
    · rcases hu : r.metadata.annotations.lookup suspendUntilKey with _ | timeout
      · simp [processItem, hrec, hu] at h
      · rcases hp : env.parse timeout with _ | t
        · simp [processItem, hrec, hu, isoparseExc, hp] at h
        · by_cases ht : t < env.now
          · cases ho : (r.metadata.annotations.lookup suspendedByKey).isSome with
            | false =>
              simp only [processItem, hrec, hu, isoparseExc, hp, ht, ho] at h
              simp only [ne_eq, not_true_eq_false, if_false, decide_eq_true_eq,
                Bool.false_eq_true, ite_true, ite_false] at h
              split at h
              · injection h with hX
                subst hX
                simp [ho]
              · exact absurd h (by simp)
            | true =>
              simp only [processItem, hrec, hu, isoparseExc, hp, ht, ho] at h
              simp only [ne_eq, not_true_eq_false, if_false, decide_eq_true_eq,
                Bool.false_eq_true, ite_true, ite_false] at h
              split at h
              · injection h with hX
                subst hX
                simp [ho]
              · exact absurd h (by simp)
          · simp [processItem, hrec, hu, isoparseExc, hp, ht] at h
    · rw [processItem_skip_of_not_disabled env g v pl kd false r
        (fun hx => nomatch hx) hrec] at h
      exact absurd h (by simp)
  | true =>
    cases hn : r.metadata.ns with
    | none =>
      rw [processItem_fail_ns env g v pl kd r hn] at h
      exact absurd h (by simp)
    | some s =>
      by_cases hrec : r.metadata.annotations.lookup reconcileKey = some ("disabled")
      · rcases hu : r.metadata.annotations.lookup suspendUntilKey with _ | timeout
        · simp [processItem, hn, hrec, hu] at h
        · rcases hp : env.parse timeout with _ | t
          · simp [processItem, hn, hrec, hu, isoparseExc, hp] at h
          · by_cases ht : t < env.now
            · cases ho : (r.metadata.annotations.lookup suspendedByKey).isSome with
              | false =>
                simp only [processItem, hn, hrec, hu, isoparseExc, hp, ht, ho] at h
                simp only [ne_eq, not_true_eq_false, if_false, decide_eq_true_eq,
                  Bool.false_eq_true, ite_true, ite_false] at h
                split at h
                · injection h with hX
                  subst hX
                  simp [ho, hn]
                · exact absurd h (by simp)
              | true =>
                simp only [processItem, hn, hrec, hu, isoparseExc, hp, ht, ho] at h
                simp only [ne_eq, not_true_eq_false, if_false, decide_eq_true_eq,
                  Bool.false_eq_true, ite_true, ite_false] at h
                split at h
                · injection h with hX
                  subst hX
                  simp [ho, hn]
                · exact absurd h (by simp)
            · simp [processItem, hn, hrec, hu, isoparseExc, hp, ht] at h
      · rw [processItem_skip_of_not_disabled env g v pl kd true r
          (fun _ => by simp [hn]) hrec] at h
        exact absurd h (by simp)

theorem callMatches_erase (g v pl : String) (nsd : Bool) (r : Resource)
    (keys : List String) (c : RemovalCall) :
    callMatches g v pl nsd
      { r with metadata := { r.metadata with
          annotations := eraseKeys keys r.metadata.annotations } } c =
      callMatches g v pl nsd r c := rfl

theorem applyCalls_no_match (g v pl : String) (nsd : Bool) (cs : List RemovalCall)
    (r : Resource) (h : ∀ c ∈ cs, callMatches g v pl nsd r c = false) :
    applyCalls g v pl nsd cs r = r := by
  induction cs with
  | nil => rfl
  | cons c cs' ih =>
    unfold applyCalls at *
    simp only [List.foldl_cons]
    rw [if_neg (by simp [h c (List.mem_cons_self _ _)])]
    exact ih (fun c2 h2 => h c2 (List.mem_cons_of_mem _ h2))

theorem eraseKeys_idem (keys : List String) (anns : List (String × String)) :
    eraseKeys keys (eraseKeys keys anns) = eraseKeys keys anns := by
  unfold eraseKeys
  induction anns with
  | nil => rfl
  | cons kv rest ih =>
    by_cases hc : keys.contains kv.1 = true
    · simp only [List.filter_cons, hc, Bool.not_true, Bool.false_eq_true, if_false]
      exact ih
    · have hc' : keys.contains kv.1 = false := by
        cases hx : keys.contains kv.1
        · rfl
        · exact absurd hx hc
      simp only [List.filter_cons, hc', Bool.not_false, if_true]
      rw [ih]

theorem applyCalls_already (g v pl : String) (nsd : Bool) (cs : List RemovalCall)
    (r : Resource)
    (h : ∀ c ∈ cs, callMatches g v pl nsd r c = true →
      eraseKeys c.keys r.metadata.annotations = r.metadata.annotations) :
    applyCalls g v pl nsd cs r = r := by
  induction cs with
  | nil => rfl
  | cons c cs' ih =>
    unfold applyCalls at *
    simp only [List.foldl_cons]
    by_cases hm : callMatches g v pl nsd r c = true
    · rw [if_pos hm, h c (List.mem_cons_self _ _) hm]
      exact ih (fun c2 h2 hm2 => h c2 (List.mem_cons_of_mem _ h2) hm2)
    · rw [if_neg hm]
      exact ih (fun c2 h2 hm2 => h c2 (List.mem_cons_of_mem _ h2) hm2)

theorem applyCalls_single (g v pl : String) (nsd : Bool) (cs : List RemovalCall)
    (r : Resource) (c : RemovalCall)
    (hmem : c ∈ cs) (hmatch : callMatches g v pl nsd r c = true)
    (huniq : ∀ c2 ∈ cs, callMatches g v pl nsd r c2 = true → c2 = c) :
    applyCalls g v pl nsd cs r =
      { r with metadata := { r.metadata with
          annotations := eraseKeys c.keys r.metadata.annotations } } := by
  induction cs with
  | nil => cases hmem
  | cons c2 cs' ih =>
    unfold applyCalls at *
    simp only [List.foldl_cons]
    by_cases hm2 : callMatches g v pl nsd r c2 = true
    · have hc2 : c2 = c := huniq c2 (List.mem_cons_self _ _) hm2
      subst hc2
      rw [if_pos hm2]
      exact applyCalls_already g v pl nsd cs'
        { r with metadata := { r.metadata with
            annotations := eraseKeys c2.keys r.metadata.annotations } }
        (fun c3 h3 hm3 => by
          have hm3' : callMatches g v pl nsd r c3 = true := by
            rw [← callMatches_erase g v pl nsd r c2.keys c3]
            exact hm3
          have hc3 : c3 = c2 := huniq c3 (List.mem_cons_of_mem _ h3) hm3'
          subst hc3
          exact eraseKeys_idem c3.keys r.metadata.annotations)
    · have hcin : c ∈ cs' := by
        rcases List.mem_cons.mp hmem with hx | hx
        · subst hx
          exact absurd hmatch hm2
        · exact hx
      rw [if_neg hm2]
      exact ih hcin (fun c3 h3 hm3 => huniq c3 (List.mem_cons_of_mem _ h3) hm3)

theorem lookup_erase_none (keys : List String) (anns : List (String × String))
    (key : String) (h : key ∈ keys) :
    (eraseKeys keys anns).lookup key = none := by
  unfold eraseKeys
  induction anns with
  | nil => rfl
  | cons kv rest ih =>
    by_cases hc : keys.contains kv.1 = true
    · simp only [List.filter_cons, hc, Bool.not_true, Bool.false_eq_true, if_false]
      exact ih
    · have hc' : keys.contains kv.1 = false := by
        cases hx : keys.contains kv.1
        · rfl
        · exact absurd hx hc
      have hne : (key == kv.1) = false := by
        have hnm : kv.1 ∉ keys := by simpa using hc'
        have : key ≠ kv.1 := fun hx => hnm (hx ▸ h)
        simpa using this
      simp only [List.filter_cons, hc', Bool.not_false, if_true, List.lookup, hne]
      exact ih

theorem processItem_skip_after_erase (env : Env) (g v pl kd : String) (nsd : Bool)
    (r : Resource) (keys : List String)
    (hns : nsd = true → r.metadata.ns.isSome)
    (hkey : reconcileKey ∈ keys) :
    processItem env g v pl kd nsd
      { r with metadata := { r.metadata with
          annotations := eraseKeys keys r.metadata.annotations } } = ItemResult.skip := by
  apply processItem_skip_of_not_disabled
  · intro h2
    exact hns h2
  · show (eraseKeys keys r.metadata.annotations).lookup reconcileKey ≠ some ("disabled")
    rw [lookup_erase_none keys r.metadata.annotations reconcileKey hkey]
    simp

theorem callMatches_id (g v pl : String) (nsd : Bool) (r : Resource) (c : RemovalCall)
    (h : callMatches g v pl nsd r c = true) :
    callId c = (g, v, pl, (if nsd then r.metadata.ns.getD ("") else ("")),
      r.metadata.name) := by
  unfold callMatches at h
  cases nsd with
  | false =>
    simp only [Bool.and_eq_true, beq_iff_eq, if_false, Bool.false_eq_true] at h
    obtain ⟨⟨⟨⟨h1, h2⟩, h3⟩, h4⟩, h5⟩ := h
    unfold callId
    simp [h1, h2, h3, h4, h5]
  | true =>
    simp only [Bool.and_eq_true, beq_iff_eq, if_true] at h
    obtain ⟨⟨⟨⟨h1, h2⟩, h3⟩, h4⟩, h5⟩ := h
    unfold callId
    simp [h1, h2, h3, h4, h5]

theorem removed_self_match (env : Env) (g v pl kd : String) (nsd : Bool) (r : Resource)
    (c : RemovalCall) (h : processItem env g v pl kd nsd r = ItemResult.removed c) :
    callMatches g v pl nsd r c = true ∧ reconcileKey ∈ c.keys ∧
    (nsd = true → r.metadata.ns.isSome) ∧
    callId c = (g, v, pl, (if nsd then r.metadata.ns.getD ("") else ("")),
      r.metadata.name) := by
  obtain ⟨h1, h2, h3, h4, h5, h6⟩ := removed_inversion env g v pl kd nsd r c h
  have hmt : callMatches g v pl nsd r c = true := by
    unfold callMatches
    cases nsd with
    | false =>
      simp only [Bool.false_eq_true, if_false] at h5
      simp [h1, h2, h3, h4, h5]
    | true =>
      simp only [if_true] at h5
      simp [h1, h2, h3, h4, h5]
  refine ⟨hmt, ?_, ?_, callMatches_id g v pl nsd r c hmt⟩
  · rw [h6]
    simp
  · intro hx
    rw [hx] at h5
    simp only [if_true] at h5
    simp [h5]

theorem processItems_after_removals (env : Env) (Rg : List RemovalCall)
    (items : List Item) (E : List Entry) (R : List RemovalCall)
    (h : processItems env items = ⟨E, R, none⟩)
    (hsub : ∀ call ∈ R, call ∈ Rg)
    (hmatch : ∀ it ∈ items, ∀ call ∈ Rg,
      callMatches it.group it.version it.plural it.namespaced it.resource call = true →
        processItem env it.group it.version it.plural it.kind it.namespaced it.resource =
          ItemResult.removed call) :
    processItems env (items.map (modifyItem Rg)) = ⟨E, [], none⟩ := by
  induction items generalizing E R with
  | nil =>
    simp only [processItems] at h
    injection h with hE _ _
    simp only [List.map_nil, processItems]
    rw [← hE]
  | cons it rest ih =>
    obtain ⟨E1, R1, E2, R2, ha, hb, hE, hR⟩ := processItems_cons_ok env it rest E R h
    subst hE
    subst hR
    have hsub2 : ∀ call ∈ R2, call ∈ Rg :=
      fun call hc => hsub call (List.mem_append.mpr (Or.inr hc))
    have hmatch2 := fun it2 h2 => hmatch it2 (List.mem_cons_of_mem _ h2)
    have hrest := ih E2 R2 hb hsub2 hmatch2
    simp only [List.map_cons, processItems]
    cases hres : processItem env it.group it.version it.plural it.kind it.namespaced
        it.resource with
    | skip =>
      rw [hres] at ha
      simp only [ItemResult.toSweep] at ha
      injection ha with hE1 hR1 _
      have hnom : ∀ call ∈ Rg,
          callMatches it.group it.version it.plural it.namespaced it.resource call
            = false := by
        intro call hc
        cases hmc : callMatches it.group it.version it.plural it.namespaced
            it.resource call with
        | false => rfl
        | true =>
          have hcc := hmatch it (List.mem_cons_self _ _) call hc hmc
          rw [hres] at hcc
          exact absurd hcc (by simp)
      have hmod : modifyItem Rg it = it := by
        unfold modifyItem
        rw [applyCalls_no_match _ _ _ _ _ _ hnom]
      have hpm : processItem env (modifyItem Rg it).group (modifyItem Rg it).version
          (modifyItem Rg it).plural (modifyItem Rg it).kind (modifyItem Rg it).namespaced
          (modifyItem Rg it).resource = ItemResult.skip := by
        rw [hmod]
        exact hres
      rw [hpm, hrest]
      simp only [ItemResult.toSweep, SweepResult.app]
      rw [← hE1]
      simp
    | entry e =>
      rw [hres] at ha
      simp only [ItemResult.toSweep] at ha
      injection ha with hE1 hR1 _
      have hnom : ∀ call ∈ Rg,
          callMatches it.group it.version it.plural it.namespaced it.resource call
            = false := by
        intro call hc
        cases hmc : callMatches it.group it.version it.plural it.namespaced
            it.resource call with
        | false => rfl
        | true =>
          have hcc := hmatch it (List.mem_cons_self _ _) call hc hmc
          rw [hres] at hcc
          exact absurd hcc (by simp)
      have hmod : modifyItem Rg it = it := by
        unfold modifyItem
        rw [applyCalls_no_match _ _ _ _ _ _ hnom]
      have hpm : processItem env (modifyItem Rg it).group (modifyItem Rg it).version
          (modifyItem Rg it).plural (modifyItem Rg it).kind (modifyItem Rg it).namespaced
          (modifyItem Rg it).resource = ItemResult.entry e := by
        rw [hmod]
        exact hres
      rw [hpm, hrest]
      simp only [ItemResult.toSweep, SweepResult.app]
      rw [← hE1]
      simp
    | removed c0 =>
      rw [hres] at ha
      simp only [ItemResult.toSweep] at ha
      injection ha with hE1 hR1 _
      have hc0 : c0 ∈ Rg := by
        refine hsub c0 (List.mem_append.mpr (Or.inl ?_))
        rw [← hR1]
        exact List.mem_singleton_self _
      obtain ⟨hmt, hkey, hns, _⟩ := removed_self_match env it.group it.version it.plural
        it.kind it.namespaced it.resource c0 hres
      have huniq : ∀ c2 ∈ Rg,
          callMatches it.group it.version it.plural it.namespaced it.resource c2 = true →
            c2 = c0 := by
        intro c2 hc2 hm2
        have h2 := hmatch it (List.mem_cons_self _ _) c2 hc2 hm2
        rw [hres] at h2
        injection h2 with hx
        exact hx.symm
      have hmod : modifyItem Rg it =
          { it with resource := { it.resource with metadata := { it.resource.metadata with
              annotations := eraseKeys c0.keys it.resource.metadata.annotations } } } := by
        unfold modifyItem
        rw [applyCalls_single it.group it.version it.plural it.namespaced Rg
          it.resource c0 hc0 hmt huniq]
      have hpm : processItem env (modifyItem Rg it).group (modifyItem Rg it).version
          (modifyItem Rg it).plural (modifyItem Rg it).kind (modifyItem Rg it).namespaced
          (modifyItem Rg it).resource = ItemResult.skip := by
        rw [hmod]
        exact processItem_skip_after_erase env it.group it.version it.plural it.kind
          it.namespaced it.resource c0.keys hns hkey
      rw [hpm, hrest]
      simp only [ItemResult.toSweep, SweepResult.app]
      rw [← hE1]
      simp
    | fail iss er =>
      rw [hres] at ha
      simp only [ItemResult.toSweep] at ha
      injection ha with _ _ hx
      cases hx

/-- C8: two sweeps in succession over a cluster state mutated only by the
first sweep's own removal patches yield identical gauge values: when the
first sweep completes cleanly with entries E and removals R, and the listed
resources have pairwise distinct patch identities, the second sweep over
the patched cluster completes cleanly with exactly the same entries E (so
all three gauge sets are identical) and issues no removals — every resource
that was SuspendedTimedOut in the first sweep was un-suspended by it, is
skipped as Active in the second sweep, and is absent from its gauge sets
(as it already was from the first sweep's). -/
theorem sweep_idempotent (env : Env) (c : Cluster) (E : List Entry)
    (R : List RemovalCall)
    (hrun : checkAllResources env c = ⟨E, R, none⟩)
    (hnd : ((getAllResources c).1.map itemId).Nodup) :
    checkAllResources env (applyRemovals c R) = ⟨E, [], none⟩ := by
  have hrun' : (processItems env (getAllResources c).1).app
      ⟨[], [], (getAllResources c).2⟩ = ⟨E, R, none⟩ := hrun
  rcases hpi : processItems env (getAllResources c).1 with ⟨E0, R0, x0⟩
  rw [hpi] at hrun'
  cases x0 with
  | some e =>
    rw [SweepResult.app_of_err _ _ e rfl] at hrun'
    injection hrun' with _ _ hx
    cases hx
  | none =>
    rw [SweepResult.app_of_none _ _ rfl] at hrun'
    injection hrun' with h1 h2 h3
    simp only [List.append_nil] at h1 h2
    subst h1
    subst h2
    have hinj : ∀ a ∈ (getAllResources c).1, ∀ b ∈ (getAllResources c).1,
        itemId a = itemId b → a = b :=
      fun a ha b hb hab => List.inj_on_of_nodup_map hnd ha hb hab
    have horig := removals_origin env (getAllResources c).1 E0 R0 hpi
    have hmatch : ∀ it ∈ (getAllResources c).1, ∀ call ∈ R0,
        callMatches it.group it.version it.plural it.namespaced it.resource call = true →
          processItem env it.group it.version it.plural it.kind it.namespaced
            it.resource = ItemResult.removed call := by
      intro it hit call hcall hm
      obtain ⟨it2, hit2, hrem⟩ := horig call hcall
      obtain ⟨_, _, _, hid2⟩ := removed_self_match env it2.group it2.version it2.plural
        it2.kind it2.namespaced it2.resource call hrem
      have hid1 := callMatches_id it.group it.version it.plural it.namespaced
        it.resource call hm
      have e1 : itemId it = callId call := by
        rw [hid1]
        rfl
      have e2 : itemId it2 = callId call := by
        rw [hid2]
        rfl
      have heq : it = it2 := hinj it hit it2 hit2 (e1.trans e2.symm)
      rw [heq]
      exact hrem
    have hafter := processItems_after_removals env R0 (getAllResources c).1 E0 R0 hpi
      (fun call hc => hc) hmatch
    have hga2 := getAllResources_applyRemovals c R0
    show (processItems env (getAllResources (applyRemovals c R0)).1).app
        ⟨[], [], (getAllResources (applyRemovals c R0)).2⟩ = ⟨E0, [], none⟩
    rw [hga2]
    have h3' : (getAllResources c).2 = none := h3
    simp only [h3']
    rw [hafter, SweepResult.app_of_none _ _ rfl]
    simp

/-- Witness for the idempotent sweep over a concrete two-resource cluster. -/
theorem sweep_idempotent_witness :
    checkAllResources envA (applyRemovals clusterMixed
      [⟨(""), ("v1"), ("configmaps"), ("ns1"), ("app"),
        [reconcileKey, suspendUntilKey, suspendedByKey]⟩]) =
      ⟨[⟨[("/v1"), ("Deployment"), ("ns1"), ("app")], false, false⟩], [], none⟩ :=
  sweep_idempotent envA clusterMixed
    [⟨[("/v1"), ("Deployment"), ("ns1"), ("app")], false, false⟩]
    [⟨(""), ("v1"), ("configmaps"), ("ns1"), ("app"),
      [reconcileKey, suspendUntilKey, suspendedByKey]⟩]
    (by decide) (by decide)
